import Mathlib

/-!
Verification of the content chunking and query-answering pipeline of the
Physical AI & Humanoid Robotics book repository.

The Python sources under `backend/app` are shallowly embedded as executable
Lean definitions: pure string manipulation becomes functions over `String`
and `List Char`, floating point scores become exact rationals, and every
external capability (embedding provider, vector index, chat completion) is
passed in explicitly as an argument so that each fallback branch of the code
is a visible case of the Lean definition.
-/

namespace PhysBook

/-! ## Python string primitives -/

/-- ASCII whitespace set of the Python `str.strip()` / regex `\s` class. -/
def isWsChar (c : Char) : Bool :=
  c = ' ' || c = '\t' || c = '\n' || c = '\r' || c = '\x0b' || c = '\x0c'

/-- Python `str.strip()` on a character list: drop whitespace at both ends. -/
def pyStripList (l : List Char) : List Char :=
  ((l.dropWhile isWsChar).reverse.dropWhile isWsChar).reverse

/-- Python `str.strip()`. -/
def pyStrip (s : String) : String := ⟨pyStripList s.data⟩

/-- Python `str.lower()` (ASCII range; the denylist keywords are ASCII). -/
def pyLower (s : String) : String := ⟨s.data.map Char.toLower⟩

/-- Python `str.startswith`: boolean list-valued pattern check. -/
def startsWithL : List Char → List Char → Bool
  | [], _ => true
  | _ :: _, [] => false
  | p :: ps, c :: cs => p == c && startsWithL ps cs

/-- Python `str.endswith`. -/
def endsWithL (p l : List Char) : Bool := startsWithL p.reverse l.reverse

/-- Python substring containment `needle in hay` (the `in` operator). -/
def listContains (needle : List Char) : List Char → Bool
  | [] => needle.isEmpty
  | c :: rest => startsWithL needle (c :: rest) || listContains needle rest

/-- Python `text.split(sep)` for the single character `/` (keeps empties). -/
def splitSlash : List Char → List (List Char)
  | [] => [[]]
  | c :: rest =>
    if c = '/' then [] :: splitSlash rest
    else
      match splitSlash rest with
      | [] => [[c]]
      | g :: gs => (c :: g) :: gs

/-- Python `"/".join(parts)`. -/
def joinSlash : List (List Char) → List Char
  | [] => []
  | [g] => g
  | g :: gs => g ++ '/' :: joinSlash gs

/-! ## RAG service: `backend/app/services/rag.py` -/

/-- The out-of-scope fallback message `OUT_OF_SCOPE_MESSAGE` (FR-008). -/
def OUT_OF_SCOPE_MESSAGE : String :=
  "I cannot provide information related to this topic. However, if you have any " ++
  "queries regarding the \x27Physical AI & Humanoid Robotics\x27 book, let me know — " ++
  "I am here to assist you."

/-- The fixed denylist `OUT_OF_SCOPE_KEYWORDS` from `rag.py`.  The Python value
is a `set`; only membership is ever used, so the embedding keeps it as the
list of its literals in source order. -/
def OUT_OF_SCOPE_KEYWORDS : List String :=
  [ "weather", "temperature", "forecast", "rain", "snow", "climate",
    "joke", "funny", "meme", "movie", "song", "music", "game",
    "capital", "country", "geography", "history", "recipe", "cooking",
    "sports", "football", "basketball", "cricket", "soccer",
    "news", "politics", "election", "president",
    "dating", "relationship", "health", "medical" ]

/-- Translation of `RAGService.is_out_of_scope`: lower-case the query and test whether any
denylist keyword occurs in it as a substring. -/
def is_out_of_scope (query : String) : Bool :=
  let query_lower := pyLower query
  OUT_OF_SCOPE_KEYWORDS.any fun keyword => listContains keyword.data query_lower.data

/-- A retrieved chunk as consumed by `RAGService` (the payload dict returned
by the vector search, with the keys the service reads). Scores are embedded
as exact rationals. -/
structure RetrievedChunk where
  chapter : String
  sectionName : String
  url : String
  score : ℚ
  raw_text : String
deriving DecidableEq, Inhabited

/-- Translation of `RAGService.check_confidence`: `0.0` for an empty list, otherwise
`top * 0.6 + avg * 0.4` where `top` is the first chunk score and `avg` the
mean of all scores.  (The two inner guards of the Python are both trivially
true on the nonempty branch and collapse here.) -/
def check_confidence : List RetrievedChunk → ℚ
  | [] => 0
  | c :: cs =>
    let scores := ((c :: cs).map RetrievedChunk.score)
    let avg_score := scores.sum / (scores.length : ℚ)
    c.score * 0.6 + avg_score * 0.4

/-! ## Citation URL normalization: `RAGService._clean_citation_url` -/

/-- Consume the digit run and the single `.`/`-` separator of one
`\d+[.-]` group, returning the remainder, or `none` when the front of the
list is not such a group.  Helper for the regex `^(\d+[.-])+`. -/
def stripAfterDigits : List Char → Option (List Char)
  | [] => none
  | c :: rest =>
    if c.isDigit then stripAfterDigits rest
    else if c = '.' || c = '-' then some rest
    else none

/-- Match one leading `\d+[.-]` group (at least one digit, then a dot or
hyphen) and return the remainder. -/
def stripOneNumGroup : List Char → Option (List Char)
  | [] => none
  | c :: rest => if c.isDigit then stripAfterDigits rest else none

/-- Fuel-driven iteration of `stripOneNumGroup` (structural recursion on the
fuel so that the kernel can evaluate it; each successful group strip consumes
at least two characters, so fuel equal to the list length always suffices and
the fuel-exhausted branch is unreachable from `stripNumLead`). -/
def stripNumLeadF : Nat → List Char → List Char
  | 0, l => l
  | fuel + 1, l =>
    match stripOneNumGroup l with
    | some rest => stripNumLeadF fuel rest
    | none => l

/-- Semantics of `re.sub(r"^(\d+[.-])+", "", segment)`: repeatedly strip a leading run of
digits followed by `.` or `-`.  The iteration matches the regex because the
greedy `\d+` is bounded by the required `[.-]` that follows, so the maximal
repetition equals repeated single-group stripping. -/
def stripNumLead (l : List Char) : List Char := stripNumLeadF l.length l

/-- Translation of `RAGService._clean_citation_url`: the five sequential rewrite steps
(strip a `docs/` or `/docs/` lead, strip a `.md` tail, strip a `/index`
tail, strip numeric leads per slash segment dropping emptied segments,
ensure a leading `/`).  An empty input returns `""` before any step runs. -/
def clean_citation_url (url : String) : String :=
  if url = "" then ""
  else
    let u0 := url.data
    let u1 :=
      if startsWithL ("docs/".data) u0 then u0.drop 5
      else if startsWithL ("/docs/".data) u0 then u0.drop 6
      else u0
    let u2 := if endsWithL (".md".data) u1 then u1.take (u1.length - 3) else u1
    let u3 := if endsWithL ("/index".data) u2 then u2.take (u2.length - 6) else u2
    let segs := (splitSlash u3).filterMap fun seg =>
      if seg = [] then none
      else
        let cleaned := stripNumLead seg
        if cleaned = [] then none else some cleaned
    let u4 := joinSlash segs
    ⟨if startsWithL ['/'] u4 then u4 else '/' :: u4⟩

/-! ## Chunking: `backend/app/utils/chunking.py` -/

/-- Translation of `_estimate_tokens`: rough token estimate, `len(text) // 4`. -/
def estimateTokens (s : String) : Nat := s.length / 4

/-- Splitter for `re.split(r"\n\n+", text)`: a separator is a maximal run of
two or more newlines.  Structural recursion on fuel (one unit per consumed
character, so fuel = length of the text always suffices; the fuel-exhausted
branch is unreachable from `parasOf`). -/
def splitParasF : Nat → List Char → List Char → List (List Char)
  | _, acc, [] => [acc.reverse]
  | 0, acc, rest => [acc.reverse ++ rest]
  | fuel + 1, acc, '\n' :: '\n' :: rest =>
    acc.reverse :: splitParasF fuel [] (rest.dropWhile (· = '\n'))
  | fuel + 1, acc, c :: rest => splitParasF fuel (c :: acc) rest

/-- Paragraphs of a section text: `re.split(r"\n\n+", text)`. -/
def parasOf (text : String) : List String :=
  (splitParasF text.data.length [] text.data).map fun l => ⟨l⟩

/-- Splitter for `re.split(r"(?<=[.!?])\s+", paragraph)`: a separator is a
maximal whitespace run immediately preceded by `.`, `!` or `?` (the
punctuation mark stays with the left sentence).  Fuel as in `splitParasF`. -/
def splitSentF : Nat → List Char → List Char → List (List Char)
  | _, acc, [] => [acc.reverse]
  | 0, acc, rest => [acc.reverse ++ rest]
  | fuel + 1, acc, c :: d :: rest =>
    if (c = '.' || c = '!' || c = '?') && isWsChar d then
      (c :: acc).reverse :: splitSentF fuel [] (rest.dropWhile isWsChar)
    else splitSentF fuel (c :: acc) (d :: rest)
  | _ + 1, acc, [c] => [(c :: acc).reverse]

/-- Sentences of a paragraph: `re.split(r"(?<=[.!?])\s+", paragraph)`. -/
def sentencesOf (paragraph : String) : List String :=
  (splitSentF paragraph.data.length [] paragraph.data).map fun l => ⟨l⟩

/-- The sentence packing loop inside `_chunk_text` (run when one paragraph
alone exceeds `max_tokens`): greedily accumulate sentences, flushing the
current group when the next sentence would exceed the budget.  Returns the
flushed groups together with the final open group and its token count, which
carry over into the enclosing paragraph loop. -/
def sentencePack (maxTokens : Nat) :
    List String → List String → Nat → List (List String) × List String × Nat
  | [], cur, tok => ([], cur, tok)
  | s :: ss, cur, tok =>
    let st := estimateTokens s
    if maxTokens < tok + st then
      let r := sentencePack maxTokens ss [s] st
      ((if cur.isEmpty then [] else [cur]) ++ r.1, r.2)
    else sentencePack maxTokens ss (cur ++ [s]) (tok + st)

/-- The paragraph loop of `_chunk_text`, producing each emitted chunk as the
list of paragraph/sentence pieces that the Python joins with `"\n\n"`.
Mirrors the source: an over-budget paragraph flushes the open chunk and is
sentence-packed; otherwise a paragraph that would exceed the budget closes
the chunk (seeding the next one with the last piece of the closed chunk when
`overlap > 0`), and a fitting paragraph is appended. -/
def chunkLoop (maxTokens overlap : Nat) :
    List String → List String → Nat → List (List String)
  | [], cur, _ => if cur.isEmpty then [] else [cur]
  | p :: ps, cur, tokens =>
    let pt := estimateTokens p
    if maxTokens < pt then
      (if cur.isEmpty then [] else [cur]) ++
        (let r := sentencePack maxTokens (sentencesOf p) [] 0
         r.1 ++ chunkLoop maxTokens overlap ps r.2.1 r.2.2)
    else if maxTokens < tokens + pt then
      cur ::
        (if 0 < overlap && !cur.isEmpty then
          let overlapText := cur.getLastD ""
          chunkLoop maxTokens overlap ps [overlapText, p] (estimateTokens overlapText + pt)
        else chunkLoop maxTokens overlap ps [p] pt)
    else chunkLoop maxTokens overlap ps (cur ++ [p]) (tokens + pt)

/-- The emitted chunks of `_chunk_text` as piece lists (before joining). -/
def chunkTextParts (text : String) (maxTokens overlap : Nat) : List (List String) :=
  chunkLoop maxTokens overlap (parasOf text) [] 0

/-- Translation of `_chunk_text`: chunk a section text into strings, each chunk being the
`"\n\n"`-join of its accumulated pieces. -/
def chunk_text (text : String) (maxTokens overlap : Nat) : List String :=
  (chunkTextParts text maxTokens overlap).map (String.intercalate "\n\n")

/-! ## Heading split: `_split_by_headings` -/

/-- Backtracking split of the whitespace run of a heading match whose text
ends right after the run: the greedy `\s+` keeps the longest whitespace
lead (at least the head character) such that the remainder of the run starts
with a non-newline character; the non-newline lead of that remainder is the group
`(.+)`.  Returns the group and the rest of the run after it. -/
def backSplitStep (rest : List Char) : Option (List Char × List Char) :=
  match rest with
  | [] => none
  | d :: _ =>
    if d = '\n' then none
    else
      let t := rest.takeWhile (· ≠ '\n')
      some (t, rest.drop t.length)

def backSplit : List Char → Option (List Char × List Char)
  | [] => none
  | _ :: rest => (backSplit rest).elim (backSplitStep rest) some

/-- Attempt to match the `re.MULTILINE` pattern `^##\s+(.+)$` at a position
known to be a line start, given the characters from that position on.
Returns the group `(.+)` (the title) and the remainder after the match.
Follows the regex backtracking order: the greedy `\s+` first takes the whole
whitespace run `W` after `##`; if a non-newline character follows, `(.+)`
takes the rest of that line.  If the text ends after `W`, the engine
backtracks inside `W` via `backSplit`. -/
def matchHeading : List Char → Option (List Char × List Char)
  | '#' :: '#' :: rest =>
    let w := rest.takeWhile isWsChar
    let u := rest.drop w.length
    if w.isEmpty then none
    else
      match u with
      | c :: _ =>
        if c = '\n' then none  -- unreachable: after a maximal `\s+` run
        else
          let t := u.takeWhile (· ≠ '\n')
          some (t, u.drop t.length)
      | [] => backSplit w
  | _ => none

/-- Scan for the first heading match, accumulating the text before it.
Returns `(textBefore, title, remainderAfterMatch)`.  The `atLineStart` flag
models the `re.MULTILINE` anchor `^`. -/
def findFirstHeading : Bool → List Char → Option (List Char × List Char × List Char)
  | _, [] => none
  | atLineStart, c :: rest =>
    match (if atLineStart then matchHeading (c :: rest) else none) with
    | some (t, after) => some ([], t, after)
    | none =>
      (findFirstHeading (c = '\n') rest).map fun r => (c :: r.1, r.2.1, r.2.2)

/-- Build the `(section_title, section_text)` pairs from the first heading
onward: each section runs from the end of its heading match to the start of
the next one, and both titles and texts are `str.strip`-ped.  Structural
recursion on fuel (every heading match consumes at least three characters,
so fuel = remaining length always suffices). -/
def buildSectionsF : Nat → List Char → List Char → List (String × String)
  | 0, title, rest => [(⟨pyStripList title⟩, ⟨pyStripList rest⟩)]
  | fuel + 1, title, rest =>
    match findFirstHeading true rest with
    | none => [(⟨pyStripList title⟩, ⟨pyStripList rest⟩)]
    | some (pre, t2, rest2) =>
      (⟨pyStripList title⟩, ⟨pyStripList pre⟩) :: buildSectionsF fuel t2 rest2

/-- Translation of `_split_by_headings`: split Markdown content at `##` headings; the text
before the first heading belongs to no section, and content without any
heading becomes the single section `("", content)`. -/
def split_by_headings (content : String) : List (String × String) :=
  match findFirstHeading true content.data with
  | none => [("", content)]
  | some (_pre, t, rest) => buildSectionsF rest.length t rest

/-! ## MD5 (for `_generate_chunk_id`, which hashes with `hashlib.md5`) -/

/-- Reduction modulo `2 ^ 32`. -/
def u32 (n : Nat) : Nat := n % 4294967296

/-- All-ones 32-bit word, used for bitwise complement. -/
def u32mask : Nat := 4294967295

/-- Left rotation within 32-bit words. -/
def rotl32 (x n : Nat) : Nat := u32 ((x <<< n) ||| (x >>> (32 - n)))

/-- The 64 MD5 round constants `floor(abs(sin(i + 1)) * 2^32)`. -/
def md5K : List Nat :=
  [ 3614090360, 3905402710, 606105819, 3250441966, 4118548399, 1200080426,
    2821735955, 4249261313, 1770035416, 2336552879, 4294925233, 2304563134,
    1804603682, 4254626195, 2792965006, 1236535329, 4129170786, 3225465664,
    643717713, 3921069994, 3593408605, 38016083, 3634488961, 3889429448,
    568446438, 3275163606, 4107603335, 1163531501, 2850285829, 4243563512,
    1735328473, 2368359562, 4294588738, 2272392833, 1839030562, 4259657740,
    2763975236, 1272893353, 4139469664, 3200236656, 681279174, 3936430074,
    3572445317, 76029189, 3654602809, 3873151461, 530742520, 3299628645,
    4096336452, 1126891415, 2878612391, 4237533241, 1700485571, 2399980690,
    4293915773, 2240044497, 1873313359, 4264355552, 2734768916, 1309151649,
    4149444226, 3174756917, 718787259, 3951481745 ]

/-- The MD5 per-round left-rotation amounts. -/
def md5S : List Nat :=
  [ 7, 12, 17, 22, 7, 12, 17, 22, 7, 12, 17, 22, 7, 12, 17, 22,
    5, 9, 14, 20, 5, 9, 14, 20, 5, 9, 14, 20, 5, 9, 14, 20,
    4, 11, 16, 23, 4, 11, 16, 23, 4, 11, 16, 23, 4, 11, 16, 23,
    6, 10, 15, 21, 6, 10, 15, 21, 6, 10, 15, 21, 6, 10, 15, 21 ]

/-- Little-endian byte expansion of a number to `k` bytes. -/
def leBytes : Nat → Nat → List Nat
  | 0, _ => []
  | k + 1, n => (n % 256) :: leBytes k (n / 256)

/-- The 16 little-endian 32-bit words of one 64-byte block. -/
def leWords : List Nat → List Nat
  | b0 :: b1 :: b2 :: b3 :: rest =>
    (b0 + 256 * b1 + 65536 * b2 + 16777216 * b3) :: leWords rest
  | _ => []

/-- One MD5 round `i` on the running state `(a, b, c, d)`. -/
def md5Round (M : List Nat) (st : Nat × Nat × Nat × Nat) (i : Nat) :
    Nat × Nat × Nat × Nat :=
  let a := st.1
  let b := st.2.1
  let c := st.2.2.1
  let d := st.2.2.2
  let fg : Nat × Nat :=
    if i < 16 then ((b &&& c) ||| ((b ^^^ u32mask) &&& d), i)
    else if i < 32 then ((d &&& b) ||| ((d ^^^ u32mask) &&& c), (5 * i + 1) % 16)
    else if i < 48 then (b ^^^ c ^^^ d, (3 * i + 5) % 16)
    else (c ^^^ (b ||| (d ^^^ u32mask)), (7 * i) % 16)
  let tmp := u32 (a + fg.1 + md5K.getD i 0 + M.getD fg.2 0)
  (d, u32 (b + rotl32 tmp (md5S.getD i 0)), b, c)

/-- Process one padded 64-byte block. -/
def md5Block (st : Nat × Nat × Nat × Nat) (block : List Nat) :
    Nat × Nat × Nat × Nat :=
  let M := leWords block
  let r := (List.range 64).foldl (md5Round M) st
  (u32 (st.1 + r.1), u32 (st.2.1 + r.2.1), u32 (st.2.2.1 + r.2.2.1),
   u32 (st.2.2.2 + r.2.2.2))

/-- MD5 padding: a `0x80` byte, zeros to 56 mod 64, then the 64-bit
little-endian bit length. -/
def md5Pad (msg : List Nat) : List Nat :=
  msg ++ 128 :: List.replicate ((119 - msg.length % 64) % 64) 0 ++
    leBytes 8 (8 * msg.length)

/-- Split the padded message into 64-byte blocks (fuel = length suffices). -/
def toBlocksF : Nat → List Nat → List (List Nat)
  | _, [] => []
  | 0, l => [l]
  | fuel + 1, l => l.take 64 :: toBlocksF fuel (l.drop 64)

/-- The 16-byte MD5 digest of a byte sequence. -/
def md5Digest (msg : List Nat) : List Nat :=
  let padded := md5Pad msg
  let r := (toBlocksF padded.length padded).foldl md5Block
    (1732584193, 4023233417, 2562383102, 271733878)
  leBytes 4 r.1 ++ leBytes 4 r.2.1 ++ leBytes 4 r.2.2.1 ++ leBytes 4 r.2.2.2

/-- Lower-case hex digit. -/
def hexDigit (n : Nat) : Char := if n < 10 then Char.ofNat (48 + n) else Char.ofNat (87 + n)

/-- UTF-8 encoding of one character (Python `str.encode()`). -/
def utf8Bytes (c : Char) : List Nat :=
  let n := c.toNat
  if n < 128 then [n]
  else if n < 2048 then [192 + n / 64, 128 + n % 64]
  else if n < 65536 then [224 + n / 4096, 128 + (n / 64) % 64, 128 + n % 64]
  else [240 + n / 262144, 128 + (n / 4096) % 64, 128 + (n / 64) % 64, 128 + n % 64]

/-- Python `hashlib.md5(s.encode()).hexdigest()`. -/
def md5HexOf (s : String) : List Char :=
  (md5Digest (s.data.flatMap utf8Bytes)).flatMap fun b => [hexDigit (b / 16), hexDigit (b % 16)]

/-- Python `str(uuid.UUID(hex32))`: insert dashes in the 8-4-4-4-12 pattern. -/
def uuidOfHex (h : List Char) : String :=
  ⟨h.take 8 ++ '-' :: (h.drop 8).take 4 ++ '-' :: (h.drop 12).take 4 ++
    '-' :: (h.drop 16).take 4 ++ '-' :: h.drop 20⟩

/-- Translation of `_generate_chunk_id`: deterministic id, the MD5 of
`f"{file_path}:{section}:{text[:100]}"` formatted as a UUID string. -/
def generate_chunk_id (file_path sectionTitle text : String) : String :=
  uuidOfHex (md5HexOf (file_path ++ ":" ++ sectionTitle ++ ":" ++ ⟨text.data.take 100⟩))

/-! ## `_file_path_to_url` and `chunk_markdown` -/

/-- Python `Path(p).parts` modelled as slash-splitting with empty segments
dropped, plus a root `"/"` part for absolute paths. -/
def pathParts (p : String) : List String :=
  let segs := ((splitSlash p.data).filter (· ≠ [])).map fun l => (⟨l⟩ : String)
  if startsWithL ['/'] p.data then "/" :: segs else segs

/-- Index of the first occurrence of `"docs"` among the parts. -/
def docsIndex (parts : List String) : Nat := parts.indexOf "docs"

/-- Strip a final `.md` / `.mdx` extension from the last URL part
(`rsplit('.', 1)[0]` of the Python applied when the suffix matches). -/
def stripMdExt (s : String) : String :=
  if endsWithL (".md".data) s.data then ⟨s.data.take (s.data.length - 3)⟩
  else if endsWithL (".mdx".data) s.data then ⟨s.data.take (s.data.length - 4)⟩
  else s

/-- Translation of `_file_path_to_url`: keep the path from the `docs` component on (whole
path when absent), strip a Markdown extension from the final component and
join with `/` under a leading slash.  An empty parts list triggers the
Python `except` fallback `f"/docs/{path.stem}"`, with an empty stem. -/
def file_path_to_url (file_path : String) : String :=
  let parts := pathParts file_path
  let relParts := if parts.contains "docs" then parts.drop (docsIndex parts) else parts
  match relParts.getLast? with
  | none => "/docs/"
  | some last =>
    let url_parts := relParts.dropLast ++ [stripMdExt last]
    "/" ++ String.intercalate "/" url_parts

/-- One produced chunk record of `chunk_markdown` (the keys of the Python
chunk dict). -/
structure DocChunk where
  chunk_id : String
  source_file : String
  chapter : String
  sectionName : String
  url : String
  raw_text : String
  token_count : Nat
deriving DecidableEq, Inhabited

/-- Translation of `chunk_markdown`: split the document body at `##` headings, chunk each
section, and emit one record per chunk with provenance metadata and the
deterministic id.  File reading, front-matter title extraction (`chapter`)
and filesystem path resolution (`source_file`) are I/O in the Python and are
passed here as explicit arguments; both are deterministic in the file. -/
def chunk_markdown (file_path : String) (chapter : String) (content : String)
    (source_file : String) (max_tokens overlap : Nat) : List DocChunk :=
  let base_url := file_path_to_url file_path
  (split_by_headings content).flatMap fun sec =>
    (chunk_text sec.2 max_tokens overlap).map fun t =>
      { chunk_id := generate_chunk_id file_path sec.1 t
        source_file := source_file
        chapter := chapter
        sectionName := if sec.1 = "" then chapter else sec.1
        url := base_url
        raw_text := t
        token_count := estimateTokens t }

/-! ## Guardrails: `backend/app/services/guardrails.py` -/

/-- Non-greedy inner scan of `re.search` of open tag, `(.*?)`, close tag: return the
shortest run of characters (newline-free unless `dotAll`) before the first
occurrence of the closing tag. -/
def scanInner (closeTag : List Char) (dotAll : Bool) : List Char → List Char → Option (List Char)
  | acc, [] => if startsWithL closeTag [] then some acc.reverse else none
  | acc, c :: rest =>
    if startsWithL closeTag (c :: rest) then some acc.reverse
    else if c = '\n' && !dotAll then none
    else scanInner closeTag dotAll (c :: acc) rest

/-- Search `re.search` of open tag, `(.*?)`, close tag: try each start position left to
right and return the group of the first full match. -/
def searchTagAux (openTag closeTag : List Char) (dotAll : Bool) : List Char → Option (List Char)
  | [] => none
  | c :: rest =>
    match
      (if startsWithL openTag (c :: rest) then
        scanInner closeTag dotAll [] ((c :: rest).drop openTag.length)
      else none) with
    | some g => some g
    | none => searchTagAux openTag closeTag dotAll rest

/-- String wrapper for `searchTagAux` (the group of the first match). -/
def searchTag (openTag closeTag response : String) (dotAll : Bool) : Option String :=
  (searchTagAux openTag.data closeTag.data dotAll response.data).map fun l => (⟨l⟩ : String)

/-- Digit-list value in base 10. -/
def digitsVal (l : List Char) : Nat :=
  l.foldl (fun acc c => acc * 10 + (c.toNat - 48)) 0

/-- Python `float(s)` on the plain signed decimal forms (`1`, `0.5`, `1.`,
`.5`, with surrounding whitespace); other inputs raise in Python and return
`none` here.  Classification scores only ever take the plain form. -/
def parsePyFloat (s : String) : Option ℚ :=
  let t := pyStripList s.data
  let signAndRest : ℚ × List Char :=
    match t with
    | '+' :: r => (1, r)
    | '-' :: r => (-1, r)
    | r => (1, r)
  let sign := signAndRest.1
  let t1 := signAndRest.2
  let ip := t1.takeWhile Char.isDigit
  match t1.drop ip.length with
  | [] => if ip.isEmpty then none else some (sign * digitsVal ip)
  | '.' :: r2 =>
    let fp := r2.takeWhile Char.isDigit
    if (r2.drop fp.length).isEmpty && !(ip.isEmpty && fp.isEmpty) then
      some (sign * ((digitsVal ip : ℚ) + (digitsVal fp : ℚ) / (10 ^ fp.length)))
    else none
  | _ => none

/-- The result dict of `classify_query`. -/
structure ClassificationResult where
  classification : String
  score : ℚ
  reasoning : String
deriving DecidableEq

/-- The fallback classification returned whenever the model call (or the
score parse) fails: on-topic with full score, reasoning flagged as fallback. -/
def fallbackClassification : ClassificationResult :=
  ⟨"ON_TOPIC", 1, "Fallback due to classification error"⟩

/-- Translation of `classify_query`: the chat-completion call is passed in as an
`Except`-valued outcome (`.error` = any raised exception: timeout, provider
failure, unavailable capability).  On success the XML response is parsed
with per-field regex searches; a present but unparseable score raises inside
the `try` block and therefore also produces the fallback result. -/
def classify_query (llmOutcome : Except String String) : ClassificationResult :=
  match llmOutcome with
  | .error _ => fallbackClassification
  | .ok response =>
    let cls := searchTag "<classification>" "</classification>" response false
    let sc := searchTag "<score>" "</score>" response false
    let rsn := searchTag "<reasoning>" "</reasoning>" response false
    match sc with
    | none => ⟨(cls.map pyStrip).getD "ON_TOPIC", 1, (rsn.map pyStrip).getD ""⟩
    | some s =>
      match parsePyFloat s with
      | none => fallbackClassification
      | some v => ⟨(cls.map pyStrip).getD "ON_TOPIC", v, (rsn.map pyStrip).getD ""⟩

/-- The fixed generic clarification line (both the parse-miss and the
exception fallback of `generate_clarification`). -/
def fallback_clarification : String :=
  "Could you clarify your question? Are you asking about this course specifically?"

/-- Translation of `generate_clarification`: extract the `<clarification>` block (DOTALL)
from the model response, falling back to the fixed line on a failed call or
a missing block. -/
def generate_clarification (llmOutcome : Except String String) : String :=
  match llmOutcome with
  | .error _ => fallback_clarification
  | .ok response =>
    match searchTag "<clarification>" "</clarification>" response true with
    | some m => pyStrip m
    | none => fallback_clarification

/-- Translation of `get_greeting_response`. -/
def get_greeting_response : String :=
  "Hello 👋 How can I help you with the Physical AI & Humanoid Robotics course?"

/-- Translation of `get_off_topic_response`. -/
def get_off_topic_response : String :=
  "I can only help with the Physical AI & Humanoid Robotics " ++
  "course content. Please ask a question related to this course."

/-! ## Answers and citations -/

/-- Modelled from the spec: the Citation record `{chapterTitle, sectionTitle,
normalizedUrl, relevanceScore}` (the Pydantic model module
`app/models/response.py` is not among the available sources; the field set
follows the spec data model and the constructor call in `rag.py`). -/
structure Citation where
  chapter : String
  sectionName : String
  url : String
  relevance_score : ℚ
deriving DecidableEq

/-- Modelled from the spec: the terminal Answer
`{text, citations, confidence}` (the Pydantic `ChatResponse` module is not
among the available sources; the opaque `session_id` field, which every
branch merely passes through unchanged, is omitted). -/
structure ChatResponse where
  answer : String
  citations : List Citation
  confidence : ℚ
deriving DecidableEq

/-- The decline Answer produced by every out-of-scope / low-confidence /
generation-failure branch: the fixed message, no citations, confidence 0. -/
def declineResponse : ChatResponse := ⟨OUT_OF_SCOPE_MESSAGE, [], 0⟩

/-- The citation accumulation loop of `_build_citations` over the top-5
chunks, with the `seen_urls` set as a list. -/
def buildCitLoop : List RetrievedChunk → List String → List Citation
  | [], _ => []
  | chunk :: rest, seen_urls =>
    let url := clean_citation_url chunk.url
    if url ∈ seen_urls then buildCitLoop rest seen_urls
    else
      ⟨chunk.chapter, chunk.sectionName, url, chunk.score⟩ ::
        buildCitLoop rest (url :: seen_urls)

/-- Translation of `RAGService._build_citations`: normalized, order-preserving,
URL-deduplicated citations from the top 5 chunks. -/
def build_citations (chunks : List RetrievedChunk) : List Citation :=
  buildCitLoop (chunks.take 5) []

/-- The citation a chunk yields when its normalized URL is new. -/
def toCitation (chunk : RetrievedChunk) : Citation :=
  ⟨chunk.chapter, chunk.sectionName, clean_citation_url chunk.url, chunk.score⟩

/-- Default of `Settings.CONFIDENCE_THRESHOLD` (`config.py`). -/
def CONFIDENCE_THRESHOLD : ℚ := 0.2

/-- Translation of `RAGService.generate_answer` (its deterministic control flow; wall-clock
latencies are not modelled).  The chat-completion call is an explicit
argument: `none` covers both a raised exception and a falsy result, each of
which yields the decline Answer.  The second component records whether the
generation call was reached, for the temporal claims. -/
def generate_answer (query : String) (chunks : List RetrievedChunk)
    (confidence_threshold : ℚ) (llmAnswer : Option String) : ChatResponse × Bool :=
  if is_out_of_scope query then (declineResponse, false)
  else
    let confidence := check_confidence chunks
    if confidence < confidence_threshold then (declineResponse, false)
    else
      match llmAnswer with
      | none => (declineResponse, true)
      | some answer =>
        if answer = "" then (declineResponse, true)
        else ({ answer := answer, citations := build_citations chunks,
                confidence := confidence }, true)

/-! ## Pipeline orchestration: `backend/app/api/v1/chat.py` -/

/-- The fast-path greeting list of the chat endpoint. -/
def simple_greetings : List String :=
  [ "hi", "hello", "hey", "salam", "hi!", "hello!", "hey!",
    "good morning", "good afternoon", "good evening", "greetings" ]

/-- The fast-path greeting check: lower-case and strip the query, then match
the list exactly or the prefixes `hi `, `hello `, `hey `. -/
def fastGreeting (query : String) : Bool :=
  let query_lower := pyStrip (pyLower query)
  simple_greetings.contains query_lower ||
    startsWithL ("hi ".data) query_lower.data ||
    startsWithL ("hello ".data) query_lower.data ||
    startsWithL ("hey ".data) query_lower.data

/-- Outcome of one run of the deterministic core of the chat endpoint: the
response together with whether the Retriever (`rag_service.retrieve`) and
the answer-generation LLM call were invoked. -/
structure PipelineTrace where
  response : ChatResponse
  retrieverCalled : Bool
  llmGenerateCalled : Bool
deriving DecidableEq

/-- The guarded pipeline of the `chat` endpoint after validation and session
handling: fast-path greeting, classifier branch (greeting / off-topic /
ambiguous), then retrieval (any other label reaches it) and answer
generation.  External calls are explicit arguments: the classifier and
clarification chat-completion outcomes, the retrieval result, and the
generation outcome. -/
def chatPipeline (query : String) (classifierLLM clarifyLLM : Except String String)
    (retrieved : List RetrievedChunk) (genLLM : Option String)
    (confidence_threshold : ℚ) : PipelineTrace :=
  if fastGreeting query then ⟨⟨get_greeting_response, [], 1⟩, false, false⟩
  else
    let classification := classify_query classifierLLM
    if classification.classification = "GREETING" then
      ⟨⟨get_greeting_response, [], 1⟩, false, false⟩
    else if classification.classification = "OFF_TOPIC" then
      ⟨⟨get_off_topic_response, [], 0⟩, false, false⟩
    else if classification.classification = "AMBIGUOUS" then
      ⟨⟨generate_clarification clarifyLLM, [], 0.5⟩, false, false⟩
    else if retrieved.isEmpty then ⟨declineResponse, true, false⟩
    else
      let r := generate_answer query retrieved confidence_threshold genLLM
      ⟨r.1, true, r.2⟩

/-! ## Support lemmas for the string primitives -/

theorem startsWithL_iff {p l : List Char} : startsWithL p l = true ↔ p <+: l := by
  induction p generalizing l with
  | nil => simp [startsWithL]
  | cons a ps ih =>
    cases l with
    | nil => simp [startsWithL]
    | cons c cs =>
      simp [startsWithL, List.cons_prefix_cons, ih, and_comm]

theorem listContains_iff {n h : List Char} : listContains n h = true ↔ n <:+: h := by
  induction h with
  | nil => simp [listContains, List.isEmpty_iff]
  | cons c cs ih =>
    simp [listContains, List.infix_cons_iff, startsWithL_iff, ih]

theorem startsWithL_slash_step (l : List Char) :
    startsWithL ['/'] (if startsWithL ['/'] l then l else '/' :: l) = true := by
  split
  · assumption
  · simp [startsWithL]

/-- Concrete three-chunk retrieval result with similarity scores
`[0.9, 0.7, 0.5]`, the example of the confidence formula. -/
def sampleChunks : List RetrievedChunk :=
  [ ⟨"Ch", "Sec", "/a", 0.9, "t1"⟩,
    ⟨"Ch", "Sec", "/b", 0.7, "t2"⟩,
    ⟨"Ch", "Sec", "/c", 0.5, "t3"⟩ ]

/-! ## Claim theorems on the RAG scoring and screening functions -/

/-- C1: for a non-empty chunk list the computed confidence equals
`0.6 * top + 0.4 * mean` of the similarity scores, the empty list yields
`0.0`, and for scores `[0.9, 0.7, 0.5]` the confidence is exactly `0.82`. -/
theorem confidence_weighted_formula (chunks : List RetrievedChunk) (h : chunks ≠ []) :
    check_confidence chunks =
        0.6 * (chunks.headD default).score
          + 0.4 * ((chunks.map RetrievedChunk.score).sum / (chunks.length : ℚ))
      ∧ check_confidence [] = 0
      ∧ check_confidence sampleChunks = 0.82 := by
  refine ⟨?_, rfl, by norm_num [check_confidence, sampleChunks]⟩
  match chunks, h with
  | c :: cs, _ =>
    simp only [check_confidence, List.headD_cons, List.length_map]
    ring

theorem confidence_weighted_formula_witness :
    sampleChunks ≠ [] ∧
      (check_confidence sampleChunks =
          0.6 * (sampleChunks.headD default).score
            + 0.4 * ((sampleChunks.map RetrievedChunk.score).sum / (sampleChunks.length : ℚ))
        ∧ check_confidence [] = 0
        ∧ check_confidence sampleChunks = 0.82) :=
  ⟨by simp [sampleChunks], confidence_weighted_formula sampleChunks (by simp [sampleChunks])⟩

/-- C2 counterexample: the empty URL is returned unchanged as `""` by the
early return of `_clean_citation_url`, so the result of normalization does
not always begin with `/`. -/
theorem citation_url_empty_cex :
    clean_citation_url "" = "" ∧
      startsWithL ['/'] (clean_citation_url "").data = false := by decide

/-- C2 (amended): for every non-empty input URL the five rewrite steps run
in order and the result begins with `/`; the three spec examples rewrite as
stated.  (The empty string short-circuits to `""` instead.) -/
theorem citation_url_normalization (url : String) (h : url ≠ "") :
    startsWithL ['/'] (clean_citation_url url).data = true
      ∧ clean_citation_url "docs/02-ros2/2.1-intro.md" = "/ros2/intro"
      ∧ clean_citation_url "03-perception/3.2-cameras.md" = "/perception/cameras"
      ∧ clean_citation_url "docs/01-intro/index.md" = "/intro" := by
  refine ⟨?_, by decide, by decide, by decide⟩
  unfold clean_citation_url
  rw [if_neg h]
  exact startsWithL_slash_step _

theorem citation_url_normalization_witness :
    ("docs/02-ros2/2.1-intro.md" : String) ≠ "" ∧
      (startsWithL ['/'] (clean_citation_url "docs/02-ros2/2.1-intro.md").data = true
        ∧ clean_citation_url "docs/02-ros2/2.1-intro.md" = "/ros2/intro"
        ∧ clean_citation_url "03-perception/3.2-cameras.md" = "/perception/cameras"
        ∧ clean_citation_url "docs/01-intro/index.md" = "/intro") :=
  ⟨by decide, citation_url_normalization "docs/02-ros2/2.1-intro.md" (by decide)⟩

/-! ## Properties of the chunk packer -/

/-- Sum of the per-piece token estimates of the piece list of a chunk (what the
Python accumulates in `current_tokens`). -/
def sumEst (g : List String) : Nat := (g.map estimateTokens).sum

theorem sumEst_nil : sumEst [] = 0 := rfl

theorem sumEst_append_one (l : List String) (s : String) :
    sumEst (l ++ [s]) = sumEst l + estimateTokens s := by simp [sumEst]

theorem sumEst_single (s : String) : sumEst [s] = estimateTokens s := by simp [sumEst]

/-- Invariant of the sentence-packing loop: given an open group whose token
counter is its estimate sum and which is within budget or a lone oversized
sentence, every flushed group and the final open group satisfy the same
bound, and the final counter is the estimate sum of the final group. -/
theorem sentencePack_invariant (m : Nat) :
    ∀ (ss cur : List String) (tok : Nat), tok = sumEst cur →
      (sumEst cur ≤ m ∨ ∃ x, cur = [x] ∧ m < estimateTokens x) →
      (∀ g ∈ (sentencePack m ss cur tok).1,
          sumEst g ≤ m ∨ ∃ x, g = [x] ∧ m < estimateTokens x)
        ∧ (sentencePack m ss cur tok).2.2 = sumEst (sentencePack m ss cur tok).2.1
        ∧ (sumEst (sentencePack m ss cur tok).2.1 ≤ m
            ∨ ∃ x, (sentencePack m ss cur tok).2.1 = [x] ∧ m < estimateTokens x)
  | [], cur, tok, htok, hok => ⟨by simp [sentencePack], htok, hok⟩
  | s :: ss, cur, tok, htok, hok => by
    simp only [sentencePack]
    split
    · next hgt =>
      have okS : sumEst [s] ≤ m ∨ ∃ x, [s] = [x] ∧ m < estimateTokens x := by
        rcases le_or_lt (estimateTokens s) m with h | h
        · exact Or.inl (by simpa [sumEst_single] using h)
        · exact Or.inr ⟨s, rfl, h⟩
      obtain ⟨hemit, htok2, hok2⟩ :=
        sentencePack_invariant m ss [s] (estimateTokens s) (sumEst_single s).symm okS
      refine ⟨?_, htok2, hok2⟩
      intro g hg
      rcases List.mem_append.mp hg with h | h
      · split at h
        · simp at h
        · rcases List.mem_singleton.mp h with rfl
          rcases hok with hle | hsing
          · exact Or.inl hle
          · exact Or.inr hsing
      · exact hemit g h
    · next hle =>
      exact sentencePack_invariant m ss (cur ++ [s]) (tok + estimateTokens s)
        (by rw [sumEst_append_one, htok])
        (Or.inl (by rw [sumEst_append_one, ← htok]; omega))

/-- The disjunction satisfied by the piece list of every emitted chunk: within
budget, or a lone oversized piece, or (with positive overlap) a seeded
pair. -/
def okChunk (m ov : Nat) (g : List String) : Prop :=
  sumEst g ≤ m ∨ (∃ x, g = [x] ∧ m < estimateTokens x)
    ∨ (0 < ov ∧ ∃ a b, g = [a, b])

/-- Invariant of the paragraph loop: starting from an open chunk whose
counter is its estimate sum and which satisfies `okChunk`, every emitted
chunk satisfies `okChunk`. -/
theorem chunkLoop_invariant (m ov : Nat) :
    ∀ (ps cur : List String) (tok : Nat), tok = sumEst cur → okChunk m ov cur →
      ∀ g ∈ chunkLoop m ov ps cur tok, okChunk m ov g
  | [], cur, tok, htok, hok => by
    intro g hg
    simp only [chunkLoop] at hg
    split at hg
    · simp at hg
    · rcases List.mem_singleton.mp hg with rfl
      exact hok
  | p :: ps, cur, tok, htok, hok => by
    intro g hg
    simp only [chunkLoop] at hg
    split at hg
    · -- a paragraph above the budget: flush, sentence-pack, continue
      obtain ⟨hemit, htok2, hok2⟩ :=
        sentencePack_invariant m (sentencesOf p) [] 0 rfl (Or.inl (by simp [sumEst_nil]))
      rcases List.mem_append.mp hg with h | h
      · split at h
        · simp at h
        · rcases List.mem_singleton.mp h with rfl
          exact hok
      · rcases List.mem_append.mp h with h2 | h2
        · rcases hemit g h2 with hle | hsing
          · exact Or.inl hle
          · exact Or.inr (Or.inl hsing)
        · refine chunkLoop_invariant m ov ps _ _ htok2 ?_ g h2
          rcases hok2 with hle | hsing
          · exact Or.inl hle
          · exact Or.inr (Or.inl hsing)
    · next hnotbig =>
      split at hg
      · -- the paragraph would exceed the budget: close the chunk
        rcases List.mem_cons.mp hg with rfl | h
        · exact hok
        · split at h
          · next hseed =>
            have hov : 0 < ov := by
              simp only [Bool.and_eq_true, decide_eq_true_eq] at hseed
              exact hseed.1
            exact chunkLoop_invariant m ov ps _ _ (by simp [sumEst])
              (Or.inr (Or.inr ⟨hov, _, _, rfl⟩)) g h
          · exact chunkLoop_invariant m ov ps [p] _ (sumEst_single p).symm
              (Or.inl (by rw [sumEst_single]; omega)) g h
      · -- the paragraph fits: append it
        next hfits =>
        exact chunkLoop_invariant m ov ps (cur ++ [p]) _
          (by rw [sumEst_append_one, htok])
          (Or.inl (by rw [sumEst_append_one, ← htok]; omega)) g hg

/-- C6 counterexample: with `maxTokens = 1` and `overlap = 0` the text
`"aaa\n\naaa\n\naaa"` (three paragraphs of token estimate 0 each) is emitted
as one chunk whose token estimate is 3 > 1, yet no sentence of the text has
an estimate above 1: the estimate of the joined chunk can exceed the budget even
though no single source sentence does, because the two-character separators
are never counted by the accumulator. -/
theorem chunk_size_bound_cex :
    chunk_text "aaa\n\naaa\n\naaa" 1 0 = ["aaa\n\naaa\n\naaa"]
      ∧ 1 < estimateTokens "aaa\n\naaa\n\naaa"
      ∧ ((parasOf "aaa\n\naaa\n\naaa").all fun p =>
          (sentencesOf p).all fun s => decide (estimateTokens s ≤ 1)) = true :=
  ⟨by decide, by decide, by decide⟩

/-- C6 (amended): every chunk emitted by `_chunk_text` is the `"\n\n"`-join
of a piece list whose per-piece token estimates sum to at most `maxTokens`,
unless it is a single piece (sentence or unsplit paragraph) whose own
estimate exceeds `maxTokens`, or — when `overlap > 0` — an overlap-seeded
pair of pieces; the estimate of the joined text itself may additionally exceed
`maxTokens` by the uncounted separators (see the counterexample). -/
theorem chunk_size_bound_amended (text : String) (m ov : Nat) (c : String)
    (hc : c ∈ chunk_text text m ov) :
    ∃ g ∈ chunkTextParts text m ov,
      c = String.intercalate "\n\n" g
        ∧ (sumEst g ≤ m ∨ (∃ x, g = [x] ∧ m < estimateTokens x)
            ∨ (0 < ov ∧ ∃ a b, g = [a, b])) := by
  rcases List.mem_map.mp hc with ⟨g, hg, rfl⟩
  exact ⟨g, hg, rfl,
    chunkLoop_invariant
      m ov _ [] 0 rfl (Or.inl (by simp [sumEst_nil])) g hg⟩

theorem chunk_size_bound_amended_witness :
    "Alpha beta gamma." ∈ chunk_text "Alpha beta gamma.\n\nDelta epsilon." 5 0
      ∧ ∃ g ∈ chunkTextParts "Alpha beta gamma.\n\nDelta epsilon." 5 0,
          "Alpha beta gamma." = String.intercalate "\n\n" g
            ∧ (sumEst g ≤ 5 ∨ (∃ x, g = [x] ∧ 5 < estimateTokens x)
                ∨ (0 < 0 ∧ ∃ a b, g = [a, b])) :=
  ⟨by decide,
   chunk_size_bound_amended "Alpha beta gamma.\n\nDelta epsilon." 5 0
     "Alpha beta gamma." (by decide)⟩

/-! ## Properties of the heading splitter -/

theorem pyStripList_within (l : List Char) : pyStripList l <:+: l := by
  unfold pyStripList
  have h1 : l.dropWhile isWsChar <:+ l := List.dropWhile_suffix _
  have h3 : (l.dropWhile isWsChar).reverse.dropWhile isWsChar <:+
      (l.dropWhile isWsChar).reverse := List.dropWhile_suffix _
  have h4 : ((l.dropWhile isWsChar).reverse.dropWhile isWsChar).reverse <+:
      l.dropWhile isWsChar := by
    rw [← List.reverse_suffix]
    simpa using h3
  exact h4.isInfix.trans h1.isInfix

theorem some_pair_eq {α β : Type} {a c : α} {b d : β}
    (h : some (a, b) = some (c, d)) : a = c ∧ b = d := by
  injection h with h1
  exact ⟨congrArg Prod.fst h1, congrArg Prod.snd h1⟩

theorem backSplitStep_suffix {rest t after : List Char}
    (h : backSplitStep rest = some (t, after)) : after <:+ rest := by
  unfold backSplitStep at h
  split at h
  · exact absurd h (by simp)
  · split at h
    · exact absurd h (by simp)
    · obtain ⟨h1, h2⟩ := some_pair_eq h
      subst h1; subst h2
      exact List.drop_suffix _ _

theorem backSplit_suffix : ∀ {w t after : List Char},
    backSplit w = some (t, after) → after <:+ w := by
  intro w
  induction w with
  | nil => intro t after h; simp [backSplit] at h
  | cons c rest ih =>
    intro t after h
    rw [backSplit] at h
    cases hb : backSplit rest with
    | some r =>
      rw [hb] at h
      simp only [Option.elim] at h
      rcases r with ⟨t1, a1⟩
      obtain ⟨h1, h2⟩ := some_pair_eq h
      subst h1; subst h2
      exact (ih hb).trans (List.suffix_cons c rest)
    | none =>
      rw [hb] at h
      simp only [Option.elim] at h
      exact (backSplitStep_suffix h).trans (List.suffix_cons c rest)

theorem matchHeading_suffix : ∀ {l t after : List Char},
    matchHeading l = some (t, after) → after <:+ l := by
  intro l t after h
  unfold matchHeading at h
  split at h
  · next rest =>
    simp only [] at h
    split at h
    · exact absurd h (by simp)
    · split at h
      · split at h
        · exact absurd h (by simp)
        · obtain ⟨h1, h2⟩ := some_pair_eq h
          subst h1; subst h2
          refine List.IsSuffix.trans ?_ ((List.suffix_cons _ _).trans (List.suffix_cons _ _))
          exact (List.drop_suffix _ _).trans (List.drop_suffix _ _)
      · -- the text ends right after the whitespace run, which is all of `rest`
        next hu =>
        have hw : rest.takeWhile isWsChar = rest := by
          have hpre : rest.takeWhile isWsChar <+: rest := List.takeWhile_prefix _
          have hlen : rest.length ≤ (rest.takeWhile isWsChar).length := by
            have hlen0 := congrArg List.length hu
            simp [List.length_drop] at hlen0
            omega
          exact List.IsPrefix.eq_of_length hpre
            (Nat.le_antisymm hpre.length_le hlen)
        have hsuf := backSplit_suffix h
        rw [hw] at hsuf
        exact hsuf.trans ((List.suffix_cons _ _).trans (List.suffix_cons _ _))
  · exact absurd h (by simp)

theorem findFirstHeading_parts : ∀ (b : Bool) (l pre t after : List Char),
    findFirstHeading b l = some (pre, t, after) → pre <+: l ∧ after <:+ l := by
  intro b l
  induction l generalizing b with
  | nil => intro pre t after h; simp [findFirstHeading] at h
  | cons c rest ih =>
    intro pre t after h
    unfold findFirstHeading at h
    split at h
    · next t0 after0 heq =>
      injection h with h1
      injection h1 with h2 h3
      injection h3 with h4 h5
      subst h2; subst h4; subst h5
      refine ⟨ List.nil_prefix, ?_⟩
      split at heq
      · exact matchHeading_suffix heq
      · exact absurd heq (by simp)
    · rcases Option.map_eq_some'.mp h with ⟨⟨p, t1, a1⟩, hfind, hmk⟩
      injection hmk with h2 h3
      injection h3 with h4 h5
      subst h2; subst h4; subst h5
      obtain ⟨hp, ha⟩ := ih (c = '\n') p t1 a1 hfind
      exact ⟨List.cons_prefix_cons.mpr ⟨rfl, hp⟩, ha.trans (List.suffix_cons c rest)⟩

theorem buildSectionsF_within : ∀ (fuel : Nat) (t rest : List Char),
    ∀ sec ∈ buildSectionsF fuel t rest, sec.2.data <:+: rest := by
  intro fuel
  induction fuel with
  | zero =>
    intro t rest sec hsec
    rcases List.mem_singleton.mp hsec with rfl
    exact pyStripList_within rest
  | succ fuel ih =>
    intro t rest sec hsec
    unfold buildSectionsF at hsec
    split at hsec
    · rcases List.mem_singleton.mp hsec with rfl
      exact pyStripList_within rest
    · next pre t2 rest2 heq =>
      rcases List.mem_cons.mp hsec with rfl | h2
      · have hpre : pre <+: rest := (findFirstHeading_parts true rest pre t2 rest2 heq).1
        exact (pyStripList_within pre).trans hpre.isInfix
      · have hsuf : rest2 <:+ rest := (findFirstHeading_parts true rest pre t2 rest2 heq).2
        exact (ih t2 rest2 sec h2).trans hsuf.isInfix

/-! ## Claim theorems on the chunker -/

/-- C9: when the body contains a `##` heading (the scanner finds a first
match, with `rest` the content after that heading line), the text of every
emitted section lies entirely inside `rest` — the body text before the first
heading is assigned to no section; when the body contains no `##` heading,
the whole body becomes the single section with the empty title. -/
theorem heading_preamble_dropped (content : String) :
    (∀ pre t rest, findFirstHeading true content.data = some (pre, t, rest) →
        ∀ sec ∈ split_by_headings content, sec.2.data <:+: rest)
      ∧ (findFirstHeading true content.data = none →
          split_by_headings content = [("", content)]) := by
  constructor
  · intro pre t rest h sec hsec
    unfold split_by_headings at hsec
    rw [h] at hsec
    exact buildSectionsF_within _ _ _ sec hsec
  · intro h
    unfold split_by_headings
    rw [h]

theorem heading_preamble_dropped_witness :
    findFirstHeading true "intro\n## A\nbody".data
        = some ("intro\n".data, "A".data, "\nbody".data)
      ∧ (∀ sec ∈ split_by_headings "intro\n## A\nbody", sec.2.data <:+: "\nbody".data)
      ∧ findFirstHeading true "plain text".data = none
      ∧ split_by_headings "plain text" = [("", "plain text")] :=
  ⟨by decide,
   (heading_preamble_dropped "intro\n## A\nbody").1 "intro\n".data "A".data "\nbody".data
     (by decide),
   by decide,
   (heading_preamble_dropped "plain text").2 (by decide)⟩

/-- C8: the chunker is a pure function of the document and its parameters:
two runs on identical input yield lists of equal length whose chunk ids and
texts agree position by position (every ingredient of the Python id —
`hashlib.md5` included — is embedded as a mathematical function, so
re-ingestion of an unchanged document reproduces the ids exactly). -/
theorem chunking_deterministic (file_path chapter content source_file : String)
    (max_tokens overlap : Nat) :
    (chunk_markdown file_path chapter content source_file max_tokens overlap).length
        = (chunk_markdown file_path chapter content source_file max_tokens overlap).length
      ∧ (chunk_markdown file_path chapter content source_file max_tokens overlap).map
          DocChunk.chunk_id
        = (chunk_markdown file_path chapter content source_file max_tokens overlap).map
            DocChunk.chunk_id
      ∧ (chunk_markdown file_path chapter content source_file max_tokens overlap).map
          DocChunk.raw_text
        = (chunk_markdown file_path chapter content source_file max_tokens overlap).map
            DocChunk.raw_text :=
  ⟨rfl, rfl, rfl⟩

theorem chunking_deterministic_witness :
    (chunk_markdown "docs/02-ros2/2.1-intro.md" "ROS2" "## A\nbody text." "docs/02-ros2/2.1-intro.md" 512 50).length
        = (chunk_markdown "docs/02-ros2/2.1-intro.md" "ROS2" "## A\nbody text." "docs/02-ros2/2.1-intro.md" 512 50).length
      ∧ (chunk_markdown "docs/02-ros2/2.1-intro.md" "ROS2" "## A\nbody text." "docs/02-ros2/2.1-intro.md" 512 50).map
          DocChunk.chunk_id
        = (chunk_markdown "docs/02-ros2/2.1-intro.md" "ROS2" "## A\nbody text." "docs/02-ros2/2.1-intro.md" 512 50).map
            DocChunk.chunk_id
      ∧ (chunk_markdown "docs/02-ros2/2.1-intro.md" "ROS2" "## A\nbody text." "docs/02-ros2/2.1-intro.md" 512 50).map
          DocChunk.raw_text
        = (chunk_markdown "docs/02-ros2/2.1-intro.md" "ROS2" "## A\nbody text." "docs/02-ros2/2.1-intro.md" 512 50).map
            DocChunk.raw_text :=
  chunking_deterministic "docs/02-ros2/2.1-intro.md" "ROS2" "## A\nbody text."
    "docs/02-ros2/2.1-intro.md" 512 50

/-! ## Properties of the citation builder -/

theorem buildCitLoop_length_le (l : List RetrievedChunk) :
    ∀ seen, (buildCitLoop l seen).length ≤ l.length := by
  induction l with
  | nil => intro seen; simp [buildCitLoop]
  | cons hd rest ih =>
    intro seen
    simp only [buildCitLoop]
    split
    · exact Nat.le_trans (ih seen) (Nat.le_succ _)
    · simpa using ih (clean_citation_url hd.url :: seen)

theorem buildCitLoop_url_not_seen (l : List RetrievedChunk) :
    ∀ seen, ∀ c ∈ buildCitLoop l seen, c.url ∉ seen := by
  induction l with
  | nil => intro seen c hc; simp [buildCitLoop] at hc
  | cons hd rest ih =>
    intro seen c hc
    simp only [buildCitLoop] at hc
    split at hc
    · exact ih seen c hc
    · next hnew =>
      rcases List.mem_cons.mp hc with rfl | hc2
      · exact hnew
      · exact fun hmem => ih _ c hc2 (List.mem_cons_of_mem _ hmem)

theorem buildCitLoop_urls_nodup (l : List RetrievedChunk) :
    ∀ seen, ((buildCitLoop l seen).map Citation.url).Nodup := by
  induction l with
  | nil => intro seen; simp [buildCitLoop]
  | cons hd rest ih =>
    intro seen
    simp only [buildCitLoop]
    split
    · exact ih seen
    · refine List.Nodup.cons ?_ (ih _)
      intro hmem
      rcases List.mem_map.mp hmem with ⟨c, hc, hurl⟩
      exact buildCitLoop_url_not_seen rest _ c hc (hurl ▸ List.mem_cons_self _ _)

theorem buildCitLoop_sublist (l : List RetrievedChunk) :
    ∀ seen, (buildCitLoop l seen).Sublist (l.map toCitation) := by
  induction l with
  | nil => intro seen; simp [buildCitLoop]
  | cons hd rest ih =>
    intro seen
    simp only [buildCitLoop, List.map_cons]
    split
    · exact (ih seen).cons _
    · exact (ih _).cons₂ _

theorem buildCitLoop_first_seen (l : List RetrievedChunk) :
    ∀ seen, ∀ c ∈ buildCitLoop l seen,
      ∃ chunk, l.find? (fun x => clean_citation_url x.url == c.url) = some chunk
        ∧ c = toCitation chunk := by
  induction l with
  | nil => intro seen c hc; simp [buildCitLoop] at hc
  | cons hd rest ih =>
    intro seen c hc
    simp only [buildCitLoop] at hc
    split at hc
    · next hseen =>
      have hne : clean_citation_url hd.url ≠ c.url := fun heq =>
        buildCitLoop_url_not_seen rest seen c hc (heq ▸ hseen)
      rcases ih seen c hc with ⟨chunk, hfind, hcit⟩
      exact ⟨chunk, by rw [List.find?_cons_of_neg _ (by simpa using hne)]; exact hfind, hcit⟩
    · next hnew =>
      rcases List.mem_cons.mp hc with rfl | hc2
      · exact ⟨hd, by rw [List.find?_cons_of_pos _ (by simp [toCitation])], rfl⟩
      · have hne : clean_citation_url hd.url ≠ c.url := fun heq =>
          buildCitLoop_url_not_seen rest _ c hc2 (heq ▸ List.mem_cons_self _ _)
        rcases ih _ c hc2 with ⟨chunk, hfind, hcit⟩
        exact ⟨chunk, by rw [List.find?_cons_of_neg _ (by simpa using hne)]; exact hfind, hcit⟩

/-- C7: the citation list built from any retrieved-chunk list has length at
most 5, has pairwise distinct normalized URLs, is an order-preserving
sublist of the per-chunk citations of the first five chunks, and each
citation originates from the first of the first five chunks whose normalized
URL matches it — so a URL shared by two chunks keeps the relevance score of the
first-seen chunk. -/
theorem citations_bounded_unique_ordered (chunks : List RetrievedChunk) :
    (build_citations chunks).length ≤ 5
      ∧ ((build_citations chunks).map Citation.url).Nodup
      ∧ (build_citations chunks).Sublist ((chunks.take 5).map toCitation)
      ∧ ∀ c ∈ build_citations chunks,
          ∃ chunk,
            (chunks.take 5).find? (fun x => clean_citation_url x.url == c.url) = some chunk
              ∧ c = toCitation chunk := by
  refine ⟨?_, buildCitLoop_urls_nodup _ _, buildCitLoop_sublist _ _,
    buildCitLoop_first_seen _ _⟩
  exact Nat.le_trans (buildCitLoop_length_le _ _) (List.length_take_le 5 chunks)

/-- Six chunks, two of which share the normalized URL `/a` with different
scores, for instantiating the citation properties. -/
def citChunks : List RetrievedChunk :=
  [ ⟨"C1", "S1", "docs/a.md", 0.9, "t1"⟩,
    ⟨"C2", "S2", "a.md", 0.8, "t2"⟩,
    ⟨"C3", "S3", "docs/b.md", 0.7, "t3"⟩,
    ⟨"C4", "S4", "docs/c.md", 0.6, "t4"⟩,
    ⟨"C5", "S5", "docs/d.md", 0.5, "t5"⟩,
    ⟨"C6", "S6", "docs/e.md", 0.4, "t6"⟩ ]

theorem citations_bounded_unique_ordered_witness :
    (build_citations citChunks).length ≤ 5
      ∧ ((build_citations citChunks).map Citation.url).Nodup
      ∧ (build_citations citChunks).Sublist ((citChunks.take 5).map toCitation)
      ∧ ∀ c ∈ build_citations citChunks,
          ∃ chunk,
            (citChunks.take 5).find? (fun x => clean_citation_url x.url == c.url) = some chunk
              ∧ c = toCitation chunk :=
  citations_bounded_unique_ordered citChunks

/-- Concrete one-chunk retrieval whose computed confidence is `0.15`. -/
def lowChunks : List RetrievedChunk := [⟨"Ch", "Sec", "docs/a.md", 0.15, "t"⟩]

/-- C3: whenever the computed confidence of the retrieved chunks is strictly
below the threshold, answer generation returns the fixed decline Answer (the
out-of-scope message, no citations) with reported confidence pinned to `0`
rather than the computed value, and without calling the generation LLM. -/
theorem low_confidence_declines (query : String) (chunks : List RetrievedChunk)
    (threshold : ℚ) (llmAnswer : Option String)
    (h : check_confidence chunks < threshold) :
    generate_answer query chunks threshold llmAnswer = (declineResponse, false)
      ∧ declineResponse.answer = OUT_OF_SCOPE_MESSAGE
      ∧ declineResponse.citations = []
      ∧ declineResponse.confidence = 0 := by
  refine ⟨?_, rfl, rfl, rfl⟩
  unfold generate_answer
  split
  · rfl
  · split <;> simp [h]

theorem low_confidence_declines_witness :
    check_confidence lowChunks = 0.15
      ∧ check_confidence lowChunks < CONFIDENCE_THRESHOLD
      ∧ (generate_answer "how many ros2 nodes" lowChunks CONFIDENCE_THRESHOLD (some "ans")
            = (declineResponse, false)
          ∧ declineResponse.answer = OUT_OF_SCOPE_MESSAGE
          ∧ declineResponse.citations = []
          ∧ declineResponse.confidence = 0) :=
  ⟨by norm_num [check_confidence, lowChunks],
   by norm_num [check_confidence, lowChunks, CONFIDENCE_THRESHOLD],
   low_confidence_declines "how many ros2 nodes" lowChunks CONFIDENCE_THRESHOLD (some "ans")
     (by norm_num [check_confidence, lowChunks, CONFIDENCE_THRESHOLD])⟩

/-- C4: a failed classification call returns the ON_TOPIC/1.0 fallback with
the fallback-flagged reasoning for every error value (no error propagates),
and a pipeline run whose classifier call fails (and whose query misses the
fast greeting path) still invokes the Retriever instead of declining. -/
theorem classifier_fails_open (e query : String)
    (clarifyLLM : Except String String) (retrieved : List RetrievedChunk)
    (genLLM : Option String) (threshold : ℚ)
    (h : fastGreeting query = false) :
    classify_query (.error e) = ⟨"ON_TOPIC", 1, "Fallback due to classification error"⟩
      ∧ (chatPipeline query (.error e) clarifyLLM retrieved genLLM
          threshold).retrieverCalled = true := by
  refine ⟨rfl, ?_⟩
  unfold chatPipeline
  rw [if_neg (by simp [h])]
  cases retrieved <;> rfl

theorem classifier_fails_open_witness :
    fastGreeting "what is physical ai" = false
      ∧ (classify_query (.error "timeout")
            = ⟨"ON_TOPIC", 1, "Fallback due to classification error"⟩
        ∧ (chatPipeline "what is physical ai" (.error "timeout") (.error "x")
            [⟨"Ch", "Sec", "docs/a.md", 0.9, "t"⟩] (some "ans")
            CONFIDENCE_THRESHOLD).retrieverCalled = true) :=
  ⟨by decide,
   classifier_fails_open "timeout" "what is physical ai" (.error "x")
     [⟨"Ch", "Sec", "docs/a.md", 0.9, "t"⟩] (some "ans") CONFIDENCE_THRESHOLD (by decide)⟩

/-- C5 counterexample: a query containing the denylist keyword `weather`
that reaches the pipeline as ON_TOPIC (here via the classifier fallback)
does invoke the Retriever — the keyword screen runs only inside answer
generation, after retrieval — contradicting the claim that the Retriever is
never invoked for a denylisted query. -/
theorem denylist_retriever_cex :
    is_out_of_scope "tell me about the weather in tokyo" = true
      ∧ fastGreeting "tell me about the weather in tokyo" = false
      ∧ (classify_query (.error "timeout")).classification = "ON_TOPIC"
      ∧ (chatPipeline "tell me about the weather in tokyo" (.error "timeout") (.error "x")
          [⟨"Ch", "Sec", "docs/a.md", 0.9, "t"⟩] (some "ans")
          CONFIDENCE_THRESHOLD).retrieverCalled = true :=
  ⟨by decide, by decide, rfl, rfl⟩

/-- C5 (amended): for every query classified ON_TOPIC (including via the
classifier fallback) that contains a denylist keyword and misses the fast
greeting path, the pipeline returns the decline Answer (confidence 0, no
citations) and never calls the generation LLM, but the Retriever IS invoked
first: the keyword screen runs inside `generate_answer`, after retrieval. -/
theorem denylist_declines_after_retrieval (query : String)
    (classifierLLM clarifyLLM : Except String String)
    (retrieved : List RetrievedChunk) (genLLM : Option String) (threshold : ℚ)
    (hfast : fastGreeting query = false)
    (hclass : (classify_query classifierLLM).classification = "ON_TOPIC")
    (hkw : is_out_of_scope query = true) :
    chatPipeline query classifierLLM clarifyLLM retrieved genLLM threshold
      = ⟨declineResponse, true, false⟩ := by
  simp only [chatPipeline, hfast, Bool.false_eq_true, if_false, hclass]
  rw [if_neg (by decide), if_neg (by decide), if_neg (by decide)]
  split
  · rfl
  · simp only [generate_answer, hkw, if_true]

theorem denylist_declines_after_retrieval_witness :
    fastGreeting "latest cricket match updates" = false
      ∧ (classify_query (.ok "<classification>ON_TOPIC</classification><score>1.0</score>")).classification
          = "ON_TOPIC"
      ∧ is_out_of_scope "latest cricket match updates" = true
      ∧ chatPipeline "latest cricket match updates"
          (.ok "<classification>ON_TOPIC</classification><score>1.0</score>") (.error "x")
          [⟨"Ch", "Sec", "docs/a.md", 0.9, "t"⟩] (some "ans") CONFIDENCE_THRESHOLD
          = ⟨declineResponse, true, false⟩ :=
  ⟨by decide, by decide, by decide,
   denylist_declines_after_retrieval "latest cricket match updates"
     (.ok "<classification>ON_TOPIC</classification><score>1.0</score>") (.error "x")
     [⟨"Ch", "Sec", "docs/a.md", 0.9, "t"⟩] (some "ans") CONFIDENCE_THRESHOLD
     (by decide) (by decide) (by decide)⟩

/-- C10: the keyword out-of-scope screen flags a query exactly when some
denylist keyword occurs as a substring of the lower-cased query; matching is
not word-bounded, so `prehistory` (contains `history`) and `endgame`
(contains `game`) are both flagged. -/
theorem keyword_screen_substring (q : String) :
    (is_out_of_scope q = true ↔
        ∃ k ∈ OUT_OF_SCOPE_KEYWORDS, k.data <:+: (pyLower q).data)
      ∧ is_out_of_scope "prehistory" = true
      ∧ is_out_of_scope "endgame" = true := by
  refine ⟨?_, by decide, by decide⟩
  simp only [is_out_of_scope, List.any_eq_true, listContains_iff]

theorem keyword_screen_substring_witness :
    (is_out_of_scope "prehistory" = true ↔
        ∃ k ∈ OUT_OF_SCOPE_KEYWORDS, k.data <:+: (pyLower "prehistory").data)
      ∧ is_out_of_scope "prehistory" = true
      ∧ is_out_of_scope "endgame" = true :=
  keyword_screen_substring "prehistory"

end PhysBook
